import Mathlib

/-!
Verification of the IR-generator layer of the pytocpp transpiler
(`src/pytocpp/ir_generator.py`).

The Python classes `IRInstruction`, `BasicBlock`, `IRFunction` and the
`IRGenerator` methods are embedded as Lean structures and pure functions.
Python dictionaries with fixed key sets become structures; `None` becomes
`Option`; the mutable `self.*_counter` fields become an explicit state
record `St` threaded through every lowering function; in-place list
mutation becomes functional rebuilding of the lists.  Instruction operand
lists are `List (Option String)` because `_common_subexpression_elimination`
can insert `prev_inst.get("result")` (possibly Python `None`) into an
operand list; everywhere else operands are `some`-strings.
-/

namespace PyToCpp

/-- Embeds `IRInstruction` (`opcode`, `operands`, `result`).  `result` is
`Option String` because Python uses `None` for instructions without a
result; operands are `Option String` (see module comment). -/
structure Instr where
  opcode : String
  operands : List (Option String)
  result : Option String
deriving Repr, DecidableEq

/-- Embeds `BasicBlock` (`name`, `instructions`, `predecessors`,
`successors`). -/
structure Block where
  name : String
  instructions : List Instr
  predecessors : List String
  successors : List String
deriving Repr, DecidableEq

/-- Embeds `IRFunction` / its `to_dict` form (`name`, `return_type`,
`parameters` as (name, type) pairs, `basic_blocks`, `local_vars`). -/
structure Func where
  name : String
  return_type : String
  parameters : List (String × String)
  basic_blocks : List Block
  local_vars : List (String × String)
deriving Repr, DecidableEq

/-- Embeds the `ir` dictionary built by `_ast_to_ir`: keys `functions`,
`global_vars`, `instructions`, `basic_blocks` (the latter two always stay
empty in the source; the always-empty `cfg` dict is omitted). -/
structure GlobalVar where
  name : String
  type : String
  valueResult : String
  valueType : String
  instruction : Instr
deriving Repr, DecidableEq

structure IRModule where
  functions : List Func
  global_vars : List GlobalVar
  instructions : List Instr
  basic_blocks : List Block
deriving Repr, DecidableEq

def emptyIR : IRModule := ⟨[], [], [], []⟩

/-- The three `IRGenerator` counters (`temp_counter`, `block_counter`,
`function_counter`). -/
structure St where
  temp : Nat
  block : Nat
  fnc : Nat
deriving Repr, DecidableEq

/-- Embeds `_new_temp`: increments `temp_counter` and returns `f"t{n}"`. -/
def newTemp (s : St) : String × St :=
  let n := s.temp + 1
  ("t" ++ toString n, { s with temp := n })

/-- Embeds `_new_block`: increments `block_counter`, returns `f"block_{n}"`. -/
def newBlockName (s : St) : String × St :=
  let n := s.block + 1
  ("block_" ++ toString n, { s with block := n })

/-- Embeds `_new_function`: increments `function_counter`, returns
`f"func_{n}"`.  (Never called by any other method of the class.) -/
def newFunctionName (s : St) : String × St :=
  let n := s.fnc + 1
  ("func_" ++ toString n, { s with fnc := n })

/-- The type table (`type_info`), a name → type-string dictionary. -/
def TypeInfo := List (String × String)

/-- `dict.get(key, default)` over the association list. -/
def lookupD (m : List (String × String)) (k d : String) : String :=
  match m with
  | [] => d
  | (k', v) :: rest => if k' = k then v else lookupD rest k d

/-- `key in dict` over the association list. -/
def hasKey (m : List (String × String)) (k : String) : Bool :=
  match m with
  | [] => false
  | (k', _) :: rest => k' = k || hasKey rest k

/-!  ## The AST input format

AST nodes arrive as tagged dictionaries (node_type plus named fields).
The node kinds the generator dispatches on become constructors; every
unrecognized kind becomes an `other*` constructor (the generator treats
all of those uniformly through its final `else` branches).  Fields the
generator reads are carried; fields it never reads are dropped.
-/

/-- The payload of a `Constant` node (`value`).  The source dispatches on
the runtime kind with `type(value) is bool` checked before
`isinstance(value, int)`; the constructors are disjoint here.  A float's
textual form (`str(value)`) is carried as an uninterpreted string. -/
inductive ConstVal where
  | boolC (b : Bool)
  | intC (n : Int)
  | floatC (text : String)
  | strC (s : String)
  | noneC
  | otherC

/-- An assignment / loop target node: either a `Name` node (with its
`id`) or any other node kind. -/
inductive Target where
  | nameT (id : String)
  | otherT

/-- A type-annotation node, as read by `_annotation_to_type`. -/
inductive Ann where
  | nameA (id : String)
  | constA (value : String)
  | subscriptA (value : Ann) (slice : Option Ann)
  | otherA

/-- An expression node, as dispatched by `_expression_to_ir`.  `binop`'s
`op` is the operator node's `node_type` string. -/
inductive Expr where
  | constE (c : ConstVal)
  | nameE (id : String)
  | binop (left : Expr) (op : String) (right : Expr)
  | call (func : Expr) (args : List Expr)
  | listE (elts : List Expr)
  | dictE (keys : List Expr) (values : List Expr)
  | otherE

/-- A function parameter node (`arg` name plus optional annotation). -/
structure Param where
  arg : String
  annotation : Option Ann

/-- A statement node, as dispatched by `_process_statements` (and, for
`FunctionDef`/`Assign`, by the module builder). -/
inductive Stmt where
  | assign (targets : List Target) (value : Expr)
  | ret (value : Option Expr)
  | ifS (test : Expr) (body : List Stmt) (orelse : List Stmt)
  | forS (target : Target) (iter : Expr) (body : List Stmt)
  | whileS (test : Expr) (body : List Stmt)
  | exprS (value : Expr)
  | funcDef (name : String) (params : List Param) (body : List Stmt)
      (returns : Option Ann)
  | otherS

/-- The top-level AST node handed to `_ast_to_ir` (`none` models a falsy
`ast_node`; `nonModule` any node whose `node_type` is not `Module`). -/
inductive ASTTop where
  | module (body : List Stmt)
  | nonModule

/-!  ## Expression lowering -/

/-- The dictionary `_expression_to_ir` returns: a `result` value-reference,
a `type` string, and (for binop/call/list/dict) the computing instruction. -/
structure ExprIR where
  result : String
  type : String
  instruction : Option Instr
deriving Repr, DecidableEq

/-- Embeds `_constant_to_ir`. -/
def constantToIR (c : ConstVal) (s : St) : ExprIR × St :=
  match c with
  | .boolC b => (⟨if b then "True" else "False", "bool", none⟩, s)
  | .intC n => (⟨toString n, "int", none⟩, s)
  | .floatC text => (⟨text, "float", none⟩, s)
  | .strC v => (⟨"\"" ++ v ++ "\"", "str", none⟩, s)
  | .noneC => (⟨"null", "void", none⟩, s)
  | .otherC =>
      let tp := newTemp s
      (⟨tp.1, "auto", none⟩, tp.2)

/-- Embeds the `op_map` dictionary lookup of `_binop_to_ir`
(default `"unknown"`). -/
def opcodeOf (op : String) : String :=
  if op = "Add" then "add"
  else if op = "Sub" then "sub"
  else if op = "Mult" then "mul"
  else if op = "Div" then "div"
  else if op = "Mod" then "mod"
  else if op = "Pow" then "pow"
  else if op = "LShift" then "shl"
  else if op = "RShift" then "shr"
  else if op = "BitOr" then "or"
  else if op = "BitXor" then "xor"
  else if op = "BitAnd" then "and"
  else if op = "FloorDiv" then "floordiv"
  else "unknown"

mutual

/-- Embeds `_expression_to_ir` (dispatch) together with `_name_to_ir`,
`_binop_to_ir`, `_call_to_ir`, `_list_to_ir`, `_dict_to_ir`. -/
def exprToIR (e : Expr) (ti : TypeInfo) (s : St) : ExprIR × St :=
  match e with
  | .constE c => constantToIR c s
  | .nameE id => (⟨id, lookupD ti id "auto", none⟩, s)
  | .binop l op r =>
      let lp := exprToIR l ti s            -- left_ir, then right_ir, then temp
      let rp := exprToIR r ti lp.2
      let tp := newTemp rp.2
      (⟨tp.1, "auto",
        some ⟨opcodeOf op, [some lp.1.result, some rp.1.result], some tp.1⟩⟩, tp.2)
  | .call f args =>
      let fname := match f with
        | .nameE id => id
        | _ => "unknown"
      let ap := exprListToIR args ti s
      let tp := newTemp ap.2
      (⟨tp.1, "auto", some ⟨"call", some fname :: ap.1.map some, some tp.1⟩⟩, tp.2)
  | .listE elts =>
      let ep := exprListToIR elts ti s
      let tp := newTemp ep.2
      (⟨tp.1, "List[auto]", some ⟨"create_list", ep.1.map some, some tp.1⟩⟩, tp.2)
  | .dictE ks vs =>
      let kp := exprListToIR ks ti s       -- keys first, then values
      let vp := exprListToIR vs ti kp.2
      let tp := newTemp vp.2
      (⟨tp.1, "Dict[auto, auto]",
        some ⟨"create_dict", (kp.1 ++ vp.1).map some, some tp.1⟩⟩, tp.2)
  | .otherE =>
      let tp := newTemp s
      (⟨tp.1, "auto", none⟩, tp.2)
termination_by structural e

/-- Lowers a list of expression nodes in order, collecting the `result`
references (the `for` loops of `_call_to_ir`/`_list_to_ir`/`_dict_to_ir`). -/
def exprListToIR (es : List Expr) (ti : TypeInfo) (s : St) : List String × St :=
  match es with
  | [] => ([], s)
  | e :: rest =>
      let ep := exprToIR e ti s
      let rp := exprListToIR rest ti ep.2
      (ep.1.result :: rp.1, rp.2)
termination_by structural es

end

/-- Embeds `_annotation_to_type`. -/
def annotationToType (a : Ann) : String :=
  match a with
  | .nameA id => id
  | .constA v => v
  | .subscriptA v sl =>
      match v with
      | .nameA base =>
          match sl with
          | some sa => base ++ "[" ++ annotationToType sa ++ "]"
          | none => base
      | _ => "auto"
  | .otherA => "auto"

/-!  ## Statement / control-flow lowering

`_process_statements` threads the "current block" implicitly: the list of
statements writes straight-line instructions into the block it created
(`current_block`, position `idx` below), while `_process_if` attaches its
branch to the function's **last** block (`func_ir.basic_blocks[-1]`).
Python mutates `BasicBlock` objects aliased into the function's list;
here every mutation is an update of `basic_blocks` at an index.

To obtain structural recursion, the recursive `_process_statements` calls
inside `_process_if` / `_process_for` / `_process_while` are inlined into
the corresponding `processStmt` match arms (allocate a fresh block, then
run `processStmtList` on the body); `processStatements` below is exactly
that composition.
-/

/-- Update the element at position `n` (no-op when out of range, like the
aliased-object mutation which always targets an existing element). -/
def modifyNth (g : α → α) : Nat → List α → List α
  | _, [] => []
  | 0, x :: xs => g x :: xs
  | n + 1, x :: xs => x :: modifyNth g n xs

/-- Update the last element (`func_ir.basic_blocks[-1]`); no-op on `[]`
(unreachable: every caller runs after a block was appended). -/
def modifyLast (g : α → α) : List α → List α
  | [] => []
  | [x] => [g x]
  | x :: y :: xs => x :: modifyLast g (y :: xs)

/-- `func_ir.add_basic_block(block)`. -/
def addBlock (f : Func) (b : Block) : Func :=
  { f with basic_blocks := f.basic_blocks ++ [b] }

/-- `block.add_instruction(inst)` on the block at position `idx`. -/
def appendInstrAt (f : Func) (idx : Nat) (inst : Instr) : Func :=
  let bbs := modifyNth (fun b => { b with instructions := b.instructions ++ [inst] }) idx f.basic_blocks
  { f with basic_blocks := bbs }

/-- Embeds `_process_assignment`: lower the right-hand side once, then for
each `Name` target append `store [value_ir["result"], var_name]` to the
current block.  The `instruction` field of `value_ir` is never appended. -/
def processAssignment (targets : List Target) (value : Expr) (idx : Nat)
    (f : Func) (ti : TypeInfo) (s : St) : Func × St :=
  let vp := exprToIR value ti s
  let f1 := targets.foldl (fun facc t =>
    match t with
    | .nameT id => appendInstrAt facc idx ⟨"store", [some vp.1.result, some id], none⟩
    | .otherT => facc) f
  (f1, vp.2)

/-- Embeds `_process_return`. -/
def processReturn (value : Option Expr) (idx : Nat) (f : Func)
    (ti : TypeInfo) (s : St) : Func × St :=
  match value with
  | some e =>
      let vp := exprToIR e ti s
      (appendInstrAt f idx ⟨"return", [some vp.1.result], none⟩, vp.2)
  | none => (appendInstrAt f idx ⟨"return", [], none⟩, s)

mutual

/-- The statement loop of `_process_statements`: dispatch each statement,
with `idx` the position of the `current_block` that loop created. -/
def processStmtList (stmts : List Stmt) (idx : Nat) (f : Func)
    (ti : TypeInfo) (s : St) : Func × St :=
  match stmts with
  | [] => (f, s)
  | stmt :: rest =>
      let p := processStmt stmt idx f ti s
      processStmtList rest idx p.1 ti p.2
termination_by structural stmts

/-- One iteration of the `_process_statements` loop.  The `ifS` / `forS` /
`whileS` arms embed `_process_if` / `_process_for` / `_process_while`,
with their recursive `_process_statements` calls inlined. -/
def processStmt (stmt : Stmt) (idx : Nat) (f : Func) (ti : TypeInfo)
    (s : St) : Func × St :=
  match stmt with
  | .assign targets value => processAssignment targets value idx f ti s
  | .ret value => processReturn value idx f ti s
  | .ifS test body orelse =>
      -- _process_if
      let tp := exprToIR test ti s
      let np1 := newBlockName tp.2          -- then block name
      let np2 := newBlockName np1.2         -- else block name
      let np3 := newBlockName np2.2         -- merge block name
      -- branch appended to the function's LAST block; its successors set
      let branchTo := fun (b : Block) =>
        { b with
          instructions := b.instructions ++ [⟨"branch", [some tp.1.result], none⟩],
          successors := [np1.1, np2.1] }
      let f1 : Func := { f with basic_blocks := modifyLast branchTo f.basic_blocks }
      -- then block appended, then the body lowered via _process_statements
      let iThen := f1.basic_blocks.length
      let f2 := addBlock f1 ⟨np1.1, [], [], []⟩
      let iBody := f2.basic_blocks.length
      let npB := newBlockName np3.2
      let bp := processStmtList body iBody (addBlock f2 ⟨npB.1, [], [], []⟩) ti npB.2
      -- else block appended; orelse lowered only when non-empty
      let iElse := bp.1.basic_blocks.length
      let f4 := addBlock bp.1 ⟨np2.1, [], [], []⟩
      let op : Func × St :=
        match orelse with
        | [] => (f4, bp.2)
        | _ =>
            let npO := newBlockName bp.2
            processStmtList orelse f4.basic_blocks.length
              (addBlock f4 ⟨npO.1, [], [], []⟩) ti npO.2
      -- merge block appended; edge bookkeeping on then/else/merge
      let iMerge := op.1.basic_blocks.length
      let f6 := addBlock op.1 ⟨np3.1, [], [], []⟩
      let bbs7 := modifyNth (fun b => { b with successors := [np3.1] }) iThen f6.basic_blocks
      let bbs8 := modifyNth (fun b => { b with successors := [np3.1] }) iElse bbs7
      let bbs9 := modifyNth (fun b => { b with predecessors := [np1.1, np2.1] }) iMerge bbs8
      ({ f6 with basic_blocks := bbs9 }, op.2)
  | .forS target iter body =>
      -- _process_for
      let np1 := newBlockName s             -- init block name
      let np2 := newBlockName np1.2         -- loop block name
      let np3 := newBlockName np2.2         -- body block name
      let np4 := newBlockName np3.2         -- exit block name
      let ip := exprToIR iter ti np4.2
      let t1 := newTemp ip.2                -- init_iter result
      let t2 := newTemp t1.2                -- has_next result
      let t3 := newTemp t2.2                -- get_next result
      let bodyInstrs : List Instr :=
        match target with
        | .nameT id => [⟨"get_next", [some t1.1], some t3.1⟩,
                        ⟨"store", [some t3.1, some id], none⟩]
        | .otherT => [⟨"get_next", [some t1.1], some t3.1⟩]
      -- loop body lowered via _process_statements (into its own block)
      let iBody := f.basic_blocks.length
      let npB := newBlockName t3.2
      let bp := processStmtList body iBody (addBlock f ⟨npB.1, [], [], []⟩) ti npB.2
      -- the four loop blocks appended afterwards, then linked
      let f2 := addBlock bp.1 ⟨np1.1, [⟨"init_iter", [some ip.1.result], some t1.1⟩], [], [np2.1]⟩
      let f3 := addBlock f2 ⟨np2.1, [⟨"has_next", [some t1.1], some t2.1⟩], [], [np3.1, np4.1]⟩
      let f4 := addBlock f3 ⟨np3.1, bodyInstrs, [], [np2.1]⟩
      (addBlock f4 ⟨np4.1, [], [], []⟩, bp.2)
  | .whileS test body =>
      -- _process_while
      let np1 := newBlockName s             -- test block name
      let np2 := newBlockName np1.2         -- body block name
      let np3 := newBlockName np2.2         -- exit block name
      let tp := exprToIR test ti np3.2
      -- loop body lowered via _process_statements (into its own block)
      let iBody := f.basic_blocks.length
      let npB := newBlockName tp.2
      let bp := processStmtList body iBody (addBlock f ⟨npB.1, [], [], []⟩) ti npB.2
      -- the three loop blocks appended afterwards, then linked
      let f2 := addBlock bp.1 ⟨np1.1, [⟨"branch", [some tp.1.result], none⟩], [], [np2.1, np3.1]⟩
      let f3 := addBlock f2 ⟨np2.1, [], [], [np1.1]⟩
      (addBlock f3 ⟨np3.1, [], [], []⟩, bp.2)
  | .exprS value =>
      let vp := exprToIR value ti s
      if vp.1.result ≠ "" then (appendInstrAt f idx ⟨"nop", [], none⟩, vp.2)
      else (f, vp.2)
  | .funcDef _ _ _ _ => (f, s)
  | .otherS => (f, s)
termination_by structural stmt

end

/-- Embeds `_process_statements`: create the `current_block`, append it,
then run the statement loop against its position. -/
def processStatements (stmts : List Stmt) (f : Func) (ti : TypeInfo)
    (s : St) : Func × St :=
  let idx := f.basic_blocks.length
  let np := newBlockName s
  processStmtList stmts idx (addBlock f ⟨np.1, [], [], []⟩) ti np.2

/-- Embeds `_process_function`: resolve the return type (annotation, then
`<name>.return` in the type table, then `"void"`), the parameter types
(annotation, then `<name>.<param>`, then `"auto"`), then lower the body. -/
def processFunction (name : String) (params : List Param)
    (body : List Stmt) (returns : Option Ann) (ti : TypeInfo) (s : St) :
    Func × St :=
  let rt :=
    match returns with
    | some ann => annotationToType ann
    | none => lookupD ti (name ++ ".return") "void"
  let ps := params.map (fun p =>
    let pt :=
      match p.annotation with
      | some ann => annotationToType ann
      | none => lookupD ti (name ++ "." ++ p.arg) "auto"
    (p.arg, pt))
  processStatements body ⟨name, rt, ps, [], []⟩ ti s

/-- The per-target loop of `_process_global_vars`: for each `Name` target
the value expression is lowered (inside the loop, once per target) and a
`global_vars` entry with its `store` instruction is built. -/
def processGlobalTargets (targets : List Target) (value : Expr)
    (ti : TypeInfo) (s : St) : List GlobalVar × St :=
  match targets with
  | [] => ([], s)
  | .nameT id :: rest =>
      let vp := exprToIR value ti s
      let entry : GlobalVar :=
        ⟨id, lookupD ti id "auto", vp.1.result, vp.1.type,
         ⟨"store", [some vp.1.result, some id], none⟩⟩
      let rp := processGlobalTargets rest value ti vp.2
      (entry :: rp.1, rp.2)
  | .otherT :: rest => processGlobalTargets rest value ti s

/-- Embeds `_process_global_vars`: only `Assign` nodes contribute entries. -/
def processGlobalVars (nodes : List Stmt) (ti : TypeInfo) (s : St) :
    List GlobalVar × St :=
  match nodes with
  | [] => ([], s)
  | .assign targets value :: rest =>
      let ep := processGlobalTargets targets value ti s
      let rp := processGlobalVars rest ti ep.2
      (ep.1 ++ rp.1, rp.2)
  | _ :: rest => processGlobalVars rest ti s

/-- The function loop of `_ast_to_ir` (only `FunctionDef` nodes are in the
filtered list; the fallthrough arm is unreachable). -/
def processFunctions (nodes : List Stmt) (ti : TypeInfo) (s : St) :
    List Func × St :=
  match nodes with
  | [] => ([], s)
  | .funcDef name params body returns :: rest =>
      let fp := processFunction name params body returns ti s
      let rp := processFunctions rest ti fp.2
      (fp.1 :: rp.1, rp.2)
  | _ :: rest => processFunctions rest ti s

/-- `node.get("node_type") == "FunctionDef"`. -/
def isFuncDef (n : Stmt) : Bool :=
  match n with
  | .funcDef _ _ _ _ => true
  | _ => false

/-- Embeds `_ast_to_ir`: split the module body into globals and functions,
process each (`none` models a falsy `ast_node`; a non-`Module` node leaves
the initialized empty IR untouched). -/
def astToIR (ast : Option ASTTop) (ti : TypeInfo) (s : St) : IRModule × St :=
  match ast with
  | none => (emptyIR, s)
  | some .nonModule => (emptyIR, s)
  | some (.module body) =>
      let globalNodes := body.filter (fun n => !isFuncDef n)
      let funcNodes := body.filter isFuncDef
      let gp := processGlobalVars globalNodes ti s
      let fp := processFunctions funcNodes ti gp.2
      (⟨fp.1, gp.1, [], []⟩, fp.2)

/-!  ## Optimizer

The three passes of `_apply_optimizations`.  Each mutates the module's
blocks in place and returns a list of change records; here each pass maps
over functions and blocks rebuilding them, with the records concatenated
in iteration order (functions outer, blocks inner, instructions in order).

`_constant_folding` contains one genuinely fallible spot: the tuple
unpacking `op1, op2 = inst.get("operands", [])` sits *outside* its
`try`, so an arithmetic instruction whose operand list does not have
exactly two string entries raises an uncaught `ValueError` (or, for a
`None` operand reaching `.isdigit()`, an `AttributeError`).  The pass is
therefore embedded as `Option`-returning, `none` being the uncaught
exception.  (Modules built by the generator never contain arithmetic
instructions at all, so the pipeline never hits this.)
-/

/-- The opcode list `["add", "sub", "mul", "div", "mod"]` used by all
three passes. -/
def arithOps : List String := ["add", "sub", "mul", "div", "mod"]

/-- Python `str.isdigit` restricted to ASCII: non-empty and all characters
`'0'..'9'` (the operand strings produced anywhere in this program are
ASCII). -/
def isDigitText (t : String) : Bool :=
  t ≠ "" && t.toList.all (fun c => c.isDigit)

/-- Python `int(text)` on an all-digits string. -/
def strToNat (t : String) : Nat :=
  t.toList.foldl (fun n c => n * 10 + (c.toNat - 48)) 0

/-- The folded value: `+`, `-`, `*`, `//`, `%` on `int(op1)`, `int(op2)`.
Both operands are all-digits (hence non-negative), so Lean's truncating
`Int` division and `emod` agree with Python's floor `//` and `%`. -/
def pyFold (opcode : String) (a b : Nat) : Int :=
  if opcode = "add" then (a : Int) + b
  else if opcode = "sub" then (a : Int) - b
  else if opcode = "mul" then (a : Int) * b
  else if opcode = "div" then (a : Int) / b
  else if opcode = "mod" then (a : Int) % b
  else 0

/-- A change record of one of the three passes: `_constant_folding`'s
`{original, folded, location}` and the tagged records of
`_dead_code_elimination` / `_common_subexpression_elimination`. -/
inductive OptDetail where
  | folded (original : Instr) (foldedVal : String) (location : String)
  | unreachableAfterReturn (count : Nat) (location : String)
  | unusedTemp (temp : String) (location : String)
  | commonSubexpression (original : Instr) (reused : Option String) (location : String)
deriving Repr, DecidableEq

/-- One iteration of the `_constant_folding` instruction loop: the new
instruction at this position plus any record; `none` is the uncaught
exception from the operand unpacking / `.isdigit()` on `None`. -/
def foldInstr (loc : String) (inst : Instr) : Option (Instr × List OptDetail) :=
  if inst.opcode ∈ arithOps then
    match inst.operands with
    | [some a, some b] =>
        if isDigitText a && isDigitText b then
          let v1 := strToNat a
          let v2 := strToNat b
          if inst.opcode = "add" || inst.opcode = "sub" || inst.opcode = "mul"
              || ((inst.opcode = "div" || inst.opcode = "mod") && v2 ≠ 0) then
            let fv := toString (pyFold inst.opcode v1 v2)
            some (⟨"const", [some fv], inst.result⟩, [.folded inst fv loc])
          else
            -- div/mod with a zero divisor: `continue`, instruction unchanged
            some (inst, [])
        else some (inst, [])
    | [some a, none] =>
        -- `op1.isdigit() and op2.isdigit()`: short-circuits when op1 is
        -- not digits; otherwise `None.isdigit()` raises
        if isDigitText a then none else some (inst, [])
    | [none, _] => none
    | _ => none
  else some (inst, [])

/-- Map an `Option`-fallible per-element transform over a list,
concatenating the records (the doubly-nested loops of the passes). -/
def optMapAcc (f : α → Option (β × List γ)) : List α → Option (List β × List γ)
  | [] => some ([], [])
  | x :: xs =>
      match f x with
      | none => none
      | some p =>
          match optMapAcc f xs with
          | none => none
          | some ps => some (p.1 :: ps.1, p.2 ++ ps.2)

/-- Map a total per-element transform over a list, concatenating records. -/
def mapAcc (f : α → β × List γ) : List α → List β × List γ
  | [] => ([], [])
  | x :: xs =>
      let p := f x
      let ps := mapAcc f xs
      (p.1 :: ps.1, p.2 ++ ps.2)

/-- The per-block part of `_constant_folding` (location string
`f"{func_name}.{block_name}"`). -/
def foldBlock (fname : String) (b : Block) : Option (Block × List OptDetail) :=
  match optMapAcc (foldInstr (fname ++ "." ++ b.name)) b.instructions with
  | none => none
  | some p => some ({ b with instructions := p.1 }, p.2)

/-- Embeds `_constant_folding`. -/
def constantFolding (m : IRModule) : Option (IRModule × List OptDetail) :=
  match optMapAcc (fun f =>
    match optMapAcc (foldBlock f.name) f.basic_blocks with
    | none => none
    | some p => some ({ f with basic_blocks := p.1 }, p.2)) m.functions with
  | none => none
  | some p => some ({ m with functions := p.1 }, p.2)

/-- `r.startswith("t")` for a one-character prefix, expressed on the
character list (so that it computes by reduction). -/
def headIsT (r : String) : Bool :=
  match r.toList with
  | c :: _ => c = 't'
  | [] => false

/-- The `result`-is-a-temporary test of `_dead_code_elimination`:
`inst.get("result")` truthy and starting with `"t"`. -/
def tempResult (inst : Instr) : Option String :=
  match inst.result with
  | some r => if headIsT r then some r else none
  | none => none

/-- The instruction walk of `_dead_code_elimination` on one block: at the
first `return`, every later instruction is dropped and (when at least one
was dropped) an `unreachable_after_return` record emitted; otherwise a
temporary-producing instruction not referenced as an operand by any later
remaining instruction is dropped with an `unused_temp` record. -/
def dceInstrs (loc : String) : List Instr → List Instr × List OptDetail
  | [] => ([], [])
  | inst :: rest =>
      if inst.opcode = "return" then
        if rest.length > 0 then
          ([inst], [.unreachableAfterReturn rest.length loc])
        else ([inst], [])
      else
        match tempResult inst with
        | some r =>
            if rest.any (fun j => (some r) ∈ j.operands) then
              let p := dceInstrs loc rest
              (inst :: p.1, p.2)
            else
              let p := dceInstrs loc rest
              (p.1, .unusedTemp r loc :: p.2)
        | none =>
            let p := dceInstrs loc rest
            (inst :: p.1, p.2)

/-- The per-block part of `_dead_code_elimination`. -/
def dceBlock (fname : String) (b : Block) : Block × List OptDetail :=
  let p := dceInstrs (fname ++ "." ++ b.name) b.instructions
  ({ b with instructions := p.1 }, p.2)

/-- Embeds `_dead_code_elimination`. -/
def deadCodeElimination (m : IRModule) : IRModule × List OptDetail :=
  let p := mapAcc (fun f =>
    let q := mapAcc (dceBlock f.name) f.basic_blocks
    ({ f with basic_blocks := q.1 }, q.2)) m.functions
  ({ m with functions := p.1 }, p.2)

/-- The inner `for j in range(i)` scan of
`_common_subexpression_elimination`: first instruction with identical
opcode and operand sequence. -/
def findEarlier (opcode : String) (operands : List (Option String)) :
    List Instr → Option Instr
  | [] => none
  | p :: ps =>
      if p.opcode = opcode && p.operands = operands then some p
      else findEarlier opcode operands ps

/-- The instruction walk of `_common_subexpression_elimination` on one
block; `done` is the already-processed prefix of the (mutated) list, which
the `range(i)` scan searches. -/
def cseGo (loc : String) (done : List Instr) : List Instr → List Instr × List OptDetail
  | [] => ([], [])
  | inst :: rest =>
      if inst.opcode ∈ arithOps then
        match findEarlier inst.opcode inst.operands done with
        | some prev =>
            let newInst : Instr := ⟨"copy", [prev.result], inst.result⟩
            let p := cseGo loc (done ++ [newInst]) rest
            (newInst :: p.1, .commonSubexpression inst prev.result loc :: p.2)
        | none =>
            let p := cseGo loc (done ++ [inst]) rest
            (inst :: p.1, p.2)
      else
        let p := cseGo loc (done ++ [inst]) rest
        (inst :: p.1, p.2)

/-- The per-block part of `_common_subexpression_elimination`. -/
def cseBlock (fname : String) (b : Block) : Block × List OptDetail :=
  let p := cseGo (fname ++ "." ++ b.name) [] b.instructions
  ({ b with instructions := p.1 }, p.2)

/-- Embeds `_common_subexpression_elimination`. -/
def commonSubexpressionElimination (m : IRModule) : IRModule × List OptDetail :=
  let p := mapAcc (fun f =>
    let q := mapAcc (cseBlock f.name) f.basic_blocks
    ({ f with basic_blocks := q.1 }, q.2)) m.functions
  ({ m with functions := p.1 }, p.2)

/-!  ## Top-level `generate` -/

/-- One entry of the returned `optimizations` list: pass tag, description,
and the pass's change records. -/
structure OptEntry where
  type : String
  description : String
  details : List OptDetail
deriving Repr, DecidableEq

/-- Embeds `_apply_optimizations`: the three passes in fixed order, each
contributing an entry only when it recorded at least one change. -/
def applyOptimizations (ir : IRModule) : Option (IRModule × List OptEntry) :=
  match constantFolding ir with
  | none => none
  | some cf =>
      let dp := deadCodeElimination cf.1
      let cp := commonSubexpressionElimination dp.1
      let e1 : List OptEntry :=
        if cf.2.isEmpty then []
        else [⟨"constant_folding", "Folded constant expressions", cf.2⟩]
      let e2 : List OptEntry :=
        if dp.2.isEmpty then []
        else [⟨"dead_code_elimination", "Removed unreachable code", dp.2⟩]
      let e3 : List OptEntry :=
        if cp.2.isEmpty then []
        else [⟨"common_subexpression_elimination", "Eliminated redundant expressions", cp.2⟩]
      some (cp.1, e1 ++ e2 ++ e3)

/-- The `ast_data` argument of `generate` (`parse_success`, `errors`,
`ast`). -/
structure ASTData where
  parse_success : Bool
  errors : List String
  ast : Option ASTTop

/-- The `type_info` argument of `generate` (only its `"type_info"` key is
read, via `.get(..., {})`). -/
structure TypeData where
  type_info : TypeInfo

/-- The `metadata` dictionary of a successful result. -/
structure Metadata where
  temp_vars_used : Nat
  basic_blocks : Nat
  functions : Nat
deriving Repr, DecidableEq

/-- The dictionary `generate` returns.  On the failure path Python omits
the `metadata` key (here `none`) and on the success path the `errors` key
(here `[]`). -/
structure GenResult where
  success : Bool
  errors : List String
  ir : IRModule
  optimizations : List OptEntry
  metadata : Option Metadata
deriving Repr, DecidableEq

/-- Embeds `generate`.  `s0` is the generator object's counter state left
over from prior invocations; on the success path it is overwritten with
zeros before lowering (`# Reset counters`).  `none` models an uncaught
exception escaping the optimizer (never reached from lowered modules). -/
def generate (_s0 : St) (astData : ASTData) (typeData : TypeData) :
    Option GenResult :=
  if astData.parse_success then
    let gp := astToIR astData.ast typeData.type_info ⟨0, 0, 0⟩
    match applyOptimizations gp.1 with
    | none => none
    | some op =>
        some ⟨true, [], op.1, op.2, some ⟨gp.2.temp, gp.2.block, gp.2.fnc⟩⟩
  else
    some ⟨false, astData.errors, emptyIR, [], none⟩

/-!  ## Observation helpers (projections over the produced IR) -/

/-- The block at position `(fi, bi)` of a module. -/
def blockAt (m : IRModule) (fi bi : Nat) : Option Block :=
  m.functions[fi]?.bind fun f => f.basic_blocks[bi]?

/-- The instruction at position `(fi, bi, ii)` of a module. -/
def instrAt (m : IRModule) (fi bi ii : Nat) : Option Instr :=
  m.functions[fi]?.bind fun f => f.basic_blocks[bi]?.bind fun b => b.instructions[ii]?

/-- Successor names of the block named `n` inside `f`. -/
def succOf (f : Func) (n : String) : List String :=
  match f.basic_blocks.find? (fun b => b.name = n) with
  | some b => b.successors
  | none => []

/-- Fueled closure of the successor relation, starting from `seen`. -/
def reachAux (f : Func) : Nat → List String → List String
  | 0, seen => seen
  | fuel + 1, seen =>
      let next := ((seen.flatMap (succOf f)).filter (fun n => !seen.contains n)).dedup
      if next = [] then seen else reachAux f fuel (seen ++ next)

/-- Names of the blocks reachable from the function's entry block (the
first block of its list). -/
def reachableNames (f : Func) : List String :=
  match f.basic_blocks with
  | [] => []
  | b :: _ => reachAux f f.basic_blocks.length [b.name]

/-- Every successor name referenced by any block names an existing block
of the same function. -/
def noDangling (f : Func) : Bool :=
  f.basic_blocks.all (fun b =>
    b.successors.all (fun n => (f.basic_blocks.map Block.name).contains n))

/-- Every block of the function's list is reachable from the entry block. -/
def noOrphans (f : Func) : Bool :=
  f.basic_blocks.all (fun b => (reachableNames f).contains b.name)

/-- The block graph is a single connected graph: no dangling successor
references and no orphaned blocks. -/
def connectedGraph (f : Func) : Bool :=
  noDangling f && noOrphans f

/-!  ## C1 -/

/-- The statement list `x = a + b` (an `Assign` whose right-hand side is a
binary operation), lowered into a fresh function. -/
def inputC1 : List Stmt :=
  [Stmt.assign [Target.nameT "x"] (Expr.binop (Expr.nameE "a") "Add" (Expr.nameE "b"))]

def funcC1 : Func :=
  (processStatements inputC1 ⟨"f", "void", [], [], []⟩ [] ⟨0, 0, 0⟩).1

/-- C1.  The claim says the block holds the computing instruction
(`add [a, b] → t1`) followed by `store [t1, x]`.  In the code,
`_process_assignment` never appends the `instruction` field returned by
`_expression_to_ir`: expression lowering does build `add [a, b] → t1`
(second conjunct), but the block receives only the `store` (first
conjunct), so the claim fails on the code. -/
theorem assign_drops_computing_instruction :
    funcC1.basic_blocks =
      [⟨"block_1", [⟨"store", [some "t1", some "x"], none⟩], [], []⟩] ∧
    (exprToIR (Expr.binop (Expr.nameE "a") "Add" (Expr.nameE "b")) [] ⟨0, 0, 0⟩).1.instruction =
      some ⟨"add", [some "a", some "b"], some "t1"⟩ := by
  exact ⟨rfl, rfl⟩

/-!  ## C2 -/

/-- The statement list `if c: x = 1` followed by `y = 2`. -/
def inputC2 : List Stmt :=
  [Stmt.ifS (Expr.nameE "c")
     [Stmt.assign [Target.nameT "x"] (Expr.constE (ConstVal.intC 1))] [],
   Stmt.assign [Target.nameT "y"] (Expr.constE (ConstVal.intC 2))]

def funcC2 : Func :=
  (processStatements inputC2 ⟨"f", "void", [], [], []⟩ [] ⟨0, 0, 0⟩).1

/-- C2.  The claim says the `then` body is lowered into the `then` block
(`block_2`) and the following statement `y = 2` into the merge block
(`block_4`).  In the code, `_process_statements` opens a fresh block for
every recursive call, so the body lands in a new `block_5` while
`block_2` stays empty, and the statement after the `if` is appended to
the original `block_1` (after its `branch`), not to the merge block —
only the branch-append and the successor/predecessor bookkeeping of the
claim hold.  The full lowered block list witnesses this. -/
theorem if_body_lands_outside_then_block :
    funcC2.basic_blocks =
      [⟨"block_1",
        [⟨"branch", [some "c"], none⟩, ⟨"store", [some "2", some "y"], none⟩],
        [], ["block_2", "block_3"]⟩,
       ⟨"block_2", [], [], ["block_4"]⟩,
       ⟨"block_5", [⟨"store", [some "1", some "x"], none⟩], [], []⟩,
       ⟨"block_3", [], [], ["block_4"]⟩,
       ⟨"block_4", [], ["block_2", "block_3"], []⟩] := by
  rfl

/-!  ## C3 -/

/-- The statement list `while c: x = 1` (a loop with a non-empty body). -/
def inputC3 : List Stmt :=
  [Stmt.whileS (Expr.nameE "c")
     [Stmt.assign [Target.nameT "x"] (Expr.constE (ConstVal.intC 1))]]

def funcC3 : Func :=
  (processStatements inputC3 ⟨"f", "void", [], [], []⟩ [] ⟨0, 0, 0⟩).1

/-- C3.  For this loop with a non-empty body the lowered graph is *not*
connected: the entry block `block_1` has no successors, so only it is
reachable, while the loop's `test`/`body`/`exit` blocks and the extra
block holding the body's statements are all orphaned. -/
theorem while_lowering_produces_orphan_blocks :
    connectedGraph funcC3 = false ∧
    reachableNames funcC3 = ["block_1"] ∧
    funcC3.basic_blocks.length = 5 := by
  exact ⟨rfl, rfl, rfl⟩

/-!  ## C4 -/

/-- A module whose single function body is `return 42` followed by
`if c: x = 1` (syntactically valid unreachable code). -/
def astC4 : ASTData :=
  ⟨true, [],
   some (ASTTop.module
     [Stmt.funcDef "f" []
       [Stmt.ret (some (Expr.constE (ConstVal.intC 42))),
        Stmt.ifS (Expr.nameE "c")
          [Stmt.assign [Target.nameT "x"] (Expr.constE (ConstVal.intC 1))] []]
       none])⟩

/-- C4.  After the full build (lowering plus optimization), the entry
block of the lowered function still contains the `return` yet its
successor set is `{block_2, block_3}`: `_process_if` appended its branch
to the block that already held the `return`, and dead-code elimination
deleted the branch without clearing the successor edges. -/
theorem return_block_keeps_successors :
    ∃ r b, generate ⟨0, 0, 0⟩ astC4 ⟨[]⟩ = some r ∧
      blockAt r.ir 0 0 = some b ∧
      b.instructions = [⟨"return", [some "42"], none⟩] ∧
      b.successors = ["block_2", "block_3"] := by
  refine ⟨_, _, rfl, rfl, rfl, rfl⟩

/-!  ## C5

`_new_function` is the only method that increments `function_counter` and
nothing ever calls it, so lowering leaves that counter untouched; the
preservation lemmas below establish this for every lowering function, and
with them the metadata `functions` count of every completed build is 0 —
never the number of functions lowered.
-/

theorem constantToIR_fnc (c : ConstVal) (s : St) :
    ((constantToIR c s).2).fnc = s.fnc := by
  cases c <;> simp [constantToIR, newTemp]

mutual

theorem exprToIR_fnc (e : Expr) (ti : TypeInfo) (s : St) :
    ((exprToIR e ti s).2).fnc = s.fnc := by
  cases e with
  | constE c => simpa [exprToIR] using constantToIR_fnc c s
  | nameE id => simp [exprToIR]
  | binop l op r =>
      simp only [exprToIR, newTemp]
      rw [exprToIR_fnc r ti (exprToIR l ti s).2, exprToIR_fnc l ti s]
  | call f args =>
      simp only [exprToIR, newTemp]
      rw [exprListToIR_fnc args ti s]
  | listE elts =>
      simp only [exprToIR, newTemp]
      rw [exprListToIR_fnc elts ti s]
  | dictE ks vs =>
      simp only [exprToIR, newTemp]
      rw [exprListToIR_fnc vs ti (exprListToIR ks ti s).2, exprListToIR_fnc ks ti s]
  | otherE => simp [exprToIR, newTemp]
termination_by structural e

theorem exprListToIR_fnc (es : List Expr) (ti : TypeInfo) (s : St) :
    ((exprListToIR es ti s).2).fnc = s.fnc := by
  cases es with
  | nil => simp [exprListToIR]
  | cons e rest =>
      simp only [exprListToIR]
      rw [exprListToIR_fnc rest ti (exprToIR e ti s).2, exprToIR_fnc e ti s]
termination_by structural es

end

theorem processAssignment_fnc (targets : List Target) (value : Expr)
    (idx : Nat) (f : Func) (ti : TypeInfo) (s : St) :
    ((processAssignment targets value idx f ti s).2).fnc = s.fnc := by
  simp only [processAssignment]
  exact exprToIR_fnc value ti s

theorem processReturn_fnc (value : Option Expr) (idx : Nat) (f : Func)
    (ti : TypeInfo) (s : St) :
    ((processReturn value idx f ti s).2).fnc = s.fnc := by
  cases value with
  | none => simp [processReturn]
  | some e =>
      simp only [processReturn]
      exact exprToIR_fnc e ti s

mutual

theorem processStmtList_fnc (stmts : List Stmt) (idx : Nat) (f : Func)
    (ti : TypeInfo) (s : St) :
    ((processStmtList stmts idx f ti s).2).fnc = s.fnc := by
  cases stmts with
  | nil => simp [processStmtList]
  | cons stmt rest =>
      simp only [processStmtList]
      rw [processStmtList_fnc rest idx (processStmt stmt idx f ti s).1 ti
            (processStmt stmt idx f ti s).2,
          processStmt_fnc stmt idx f ti s]
termination_by structural stmts

theorem processStmt_fnc (stmt : Stmt) (idx : Nat) (f : Func)
    (ti : TypeInfo) (s : St) :
    ((processStmt stmt idx f ti s).2).fnc = s.fnc := by
  cases stmt with
  | assign targets value =>
      simp only [processStmt]
      exact processAssignment_fnc targets value idx f ti s
  | ret value =>
      simp only [processStmt]
      exact processReturn_fnc value idx f ti s
  | ifS test body orelse =>
      cases orelse with
      | nil =>
          simp only [processStmt]
          rw [processStmtList_fnc body]
          simp only [newBlockName]
          rw [exprToIR_fnc test ti s]
      | cons o os =>
          simp only [processStmt]
          rw [processStmtList_fnc (o :: os)]
          simp only [newBlockName]
          rw [processStmtList_fnc body]
          simp only [newBlockName]
          rw [exprToIR_fnc test ti s]
  | forS target iter body =>
      simp only [processStmt]
      rw [processStmtList_fnc body]
      simp only [newBlockName, newTemp]
      rw [exprToIR_fnc iter]
  | whileS test body =>
      simp only [processStmt]
      rw [processStmtList_fnc body]
      simp only [newBlockName]
      rw [exprToIR_fnc test]
  | exprS value =>
      simp only [processStmt]
      by_cases h : (exprToIR value ti s).1.result ≠ ""
      · simp only [if_pos h]
        exact exprToIR_fnc value ti s
      · simp only [if_neg h]
        exact exprToIR_fnc value ti s
  | funcDef name params fbody returns => simp [processStmt]
  | otherS => simp [processStmt]
termination_by structural stmt

end

theorem processStatements_fnc (stmts : List Stmt) (f : Func)
    (ti : TypeInfo) (s : St) :
    ((processStatements stmts f ti s).2).fnc = s.fnc := by
  simp only [processStatements]
  rw [processStmtList_fnc]
  simp [newBlockName]

theorem processFunction_fnc (name : String) (params : List Param)
    (body : List Stmt) (returns : Option Ann) (ti : TypeInfo) (s : St) :
    ((processFunction name params body returns ti s).2).fnc = s.fnc := by
  simp only [processFunction]
  exact processStatements_fnc _ _ _ _

theorem processGlobalTargets_fnc (targets : List Target) (value : Expr)
    (ti : TypeInfo) (s : St) :
    ((processGlobalTargets targets value ti s).2).fnc = s.fnc := by
  induction targets generalizing s with
  | nil => simp [processGlobalTargets]
  | cons t rest ih =>
      cases t with
      | nameT id =>
          simp only [processGlobalTargets]
          rw [ih, exprToIR_fnc]
      | otherT =>
          simp only [processGlobalTargets]
          exact ih s

theorem processGlobalVars_fnc (nodes : List Stmt) (ti : TypeInfo) (s : St) :
    ((processGlobalVars nodes ti s).2).fnc = s.fnc := by
  induction nodes generalizing s with
  | nil => simp [processGlobalVars]
  | cons n rest ih =>
      cases n with
      | assign targets value =>
          simp only [processGlobalVars]
          rw [ih, processGlobalTargets_fnc]
      | ret v => simpa only [processGlobalVars] using ih s
      | ifS a b c => simpa only [processGlobalVars] using ih s
      | forS a b c => simpa only [processGlobalVars] using ih s
      | whileS a b => simpa only [processGlobalVars] using ih s
      | exprS v => simpa only [processGlobalVars] using ih s
      | funcDef a b c d => simpa only [processGlobalVars] using ih s
      | otherS => simpa only [processGlobalVars] using ih s

theorem processFunctions_fnc (nodes : List Stmt) (ti : TypeInfo) (s : St) :
    ((processFunctions nodes ti s).2).fnc = s.fnc := by
  induction nodes generalizing s with
  | nil => simp [processFunctions]
  | cons n rest ih =>
      cases n with
      | funcDef name params body returns =>
          simp only [processFunctions]
          rw [ih, processFunction_fnc]
      | assign a b => simpa only [processFunctions] using ih s
      | ret v => simpa only [processFunctions] using ih s
      | ifS a b c => simpa only [processFunctions] using ih s
      | forS a b c => simpa only [processFunctions] using ih s
      | whileS a b => simpa only [processFunctions] using ih s
      | exprS v => simpa only [processFunctions] using ih s
      | otherS => simpa only [processFunctions] using ih s

theorem astToIR_fnc (ast : Option ASTTop) (ti : TypeInfo) (s : St) :
    ((astToIR ast ti s).2).fnc = s.fnc := by
  cases ast with
  | none => simp [astToIR]
  | some a =>
      cases a with
      | nonModule => simp [astToIR]
      | module body =>
          simp only [astToIR]
          rw [processFunctions_fnc, processGlobalVars_fnc]

/-- A module with exactly one function definition (`def g(): return 1`). -/
def astC5 : ASTData :=
  ⟨true, [],
   some (ASTTop.module
     [Stmt.funcDef "g" [] [Stmt.ret (some (Expr.constE (ConstVal.intC 1)))] none])⟩

/-- C5 counterexample.  A successful build that lowers exactly one
function reports `functions = 0` in its metadata: the `functions` count
does **not** equal the number of functions lowered into the module. -/
theorem function_count_metadata_is_zero_for_one_function_build :
    ∃ r md, generate ⟨7, 8, 9⟩ astC5 ⟨[]⟩ = some r ∧
      r.metadata = some md ∧ r.ir.functions.length = 1 ∧
      md.functions = 0 ∧ md.functions ≠ r.ir.functions.length := by
  exact ⟨_, _, rfl, rfl, rfl, rfl, by decide⟩

/-- C5 as amended.  (i) `generate` is independent of the counter state
left by prior invocations (the counters are reset to 0 at its start);
(ii) each allocator increments its counter by exactly 1 and touches
nothing else; (iii) the metadata of every build that completes reports
the final temporary and block counters of the lowering — and a
`functions` count that is always 0, because no lowering step ever calls
the function-label allocator (it is *not* the number of functions
lowered). -/
theorem counters_reset_increment_by_one_functions_zero :
    (∀ (s0 s0' : St) (d : ASTData) (td : TypeData),
        generate s0 d td = generate s0' d td) ∧
    (∀ s : St,
        (newTemp s).2 = { s with temp := s.temp + 1 } ∧
        (newBlockName s).2 = { s with block := s.block + 1 } ∧
        (newFunctionName s).2 = { s with fnc := s.fnc + 1 }) ∧
    (∀ (s0 : St) (d : ASTData) (td : TypeData) (r : GenResult) (md : Metadata),
        generate s0 d td = some r → r.metadata = some md →
        md.functions = 0 ∧
        md.temp_vars_used = ((astToIR d.ast td.type_info ⟨0, 0, 0⟩).2).temp ∧
        md.basic_blocks = ((astToIR d.ast td.type_info ⟨0, 0, 0⟩).2).block) := by
  refine ⟨fun s0 s0' d td => rfl, fun s => ⟨rfl, rfl, rfl⟩, ?_⟩
  intro s0 d td r md hg hmd
  by_cases hp : d.parse_success
  · simp only [generate, if_pos hp] at hg
    cases hA : applyOptimizations (astToIR d.ast td.type_info ⟨0, 0, 0⟩).1 with
    | none => rw [hA] at hg; cases hg
    | some op =>
        rw [hA] at hg
        cases hg
        simp only at hmd
        cases hmd
        refine ⟨?_, rfl, rfl⟩
        exact astToIR_fnc d.ast td.type_info ⟨0, 0, 0⟩
  · simp only [generate, if_neg hp] at hg
    cases hg
    cases hmd

/-- The build result and metadata of `astC5`, for the witness below. -/
def resC5 : GenResult :=
  (generate ⟨7, 8, 9⟩ astC5 ⟨[]⟩).getD ⟨false, [], emptyIR, [], none⟩

def mdC5 : Metadata := resC5.metadata.getD ⟨99, 99, 99⟩

theorem counters_reset_increment_by_one_functions_zero_witness :
    mdC5.functions = 0 ∧
    mdC5.temp_vars_used = ((astToIR astC5.ast (⟨[]⟩ : TypeData).type_info ⟨0, 0, 0⟩).2).temp ∧
    mdC5.basic_blocks = ((astToIR astC5.ast (⟨[]⟩ : TypeData).type_info ⟨0, 0, 0⟩).2).block :=
  counters_reset_increment_by_one_functions_zero.2.2 ⟨7, 8, 9⟩ astC5 ⟨[]⟩
    resC5 mdC5 rfl rfl

/-!  ## C9 -/

/-- C9.  When the AST data reports upstream parse failure, `generate`
returns exactly `{success: false, errors: <propagated>, ir: empty,
optimizations: []}` (and no metadata), performing no lowering. -/
theorem parse_failure_short_circuits (s0 : St) (d : ASTData) (td : TypeData)
    (h : d.parse_success = false) :
    generate s0 d td = some ⟨false, d.errors, emptyIR, [], none⟩ := by
  simp [generate, h]

/-- A failed-parse input (the shape used by the repository's own test
`test_generate_with_invalid_ast`). -/
def astC9 : ASTData := ⟨false, ["Parse error"], none⟩

theorem parse_failure_short_circuits_witness :
    generate ⟨0, 0, 0⟩ astC9 ⟨[]⟩ =
      some ⟨false, ["Parse error"], emptyIR, [], none⟩ :=
  parse_failure_short_circuits ⟨0, 0, 0⟩ astC9 ⟨[]⟩ rfl

/-!  ## C10 -/

/-- C10.  An `Assign` whose targets are all non-`Name` nodes emits no
instruction inside a function body (the function is returned unchanged)
and creates no `global_vars` entry at module level; both code paths
simply skip such targets (and, being total functions here, never raise). -/
theorem non_name_assignment_targets_are_dropped
    (targets : List Target) (value : Expr) (idx : Nat) (f : Func)
    (ti : TypeInfo) (s : St)
    (h : ∀ t ∈ targets, t = Target.otherT) :
    (processAssignment targets value idx f ti s).1 = f ∧
    processGlobalVars [Stmt.assign targets value] ti s = ([], s) := by
  constructor
  · simp only [processAssignment]
    induction targets with
    | nil => rfl
    | cons t rest ih =>
        have ht := h t (by simp)
        subst ht
        exact ih (fun t' ht' => h t' (by simp [ht']))
  · have hgt : ∀ s' : St, processGlobalTargets targets value ti s' = ([], s') := by
      intro s'
      induction targets with
      | nil => rfl
      | cons t rest ih =>
          have ht := h t (by simp)
          subst ht
          simp only [processGlobalTargets]
          exact ih (fun t' ht' => h t' (by simp [ht']))
    simp [processGlobalVars, hgt]

/-- A concrete instance: `a[0] = f(x)` at module level and in a function
body changes nothing. -/
theorem non_name_assignment_targets_are_dropped_witness :
    (processAssignment [Target.otherT] Expr.otherE 0
        ⟨"f", "void", [], [], []⟩ [] ⟨0, 0, 0⟩).1 = ⟨"f", "void", [], [], []⟩ ∧
    processGlobalVars [Stmt.assign [Target.otherT] Expr.otherE] [] ⟨0, 0, 0⟩ =
      ([], ⟨0, 0, 0⟩) :=
  non_name_assignment_targets_are_dropped [Target.otherT] Expr.otherE 0
    ⟨"f", "void", [], [], []⟩ [] ⟨0, 0, 0⟩ (by intro t ht; simpa using ht)

/-!  ## C6 -/

/-- Positional characterization of `optMapAcc`: on success, the output
element at each index is the (successful) image of the input element
there. -/
theorem optMapAcc_index {α β γ : Type _} {f : α → Option (β × List γ)}
    {xs : List α} {ys : List β} {rs : List γ}
    (h : optMapAcc f xs = some (ys, rs)) :
    ∀ (i : Nat) (x : α), xs[i]? = some x →
      ∃ y r, f x = some (y, r) ∧ ys[i]? = some y := by
  induction xs generalizing ys rs with
  | nil =>
      intro i x hx
      simp at hx
  | cons a as ih =>
      intro i x hx
      simp only [optMapAcc] at h
      cases hfa : f a with
      | none => rw [hfa] at h; cases h
      | some p =>
          rw [hfa] at h
          cases hrec : optMapAcc f as with
          | none => rw [hrec] at h; cases h
          | some q =>
              rw [hrec] at h
              simp only [Option.some.injEq, Prod.mk.injEq] at h
              obtain ⟨hy, hr⟩ := h
              cases i with
              | zero =>
                  simp only [List.getElem?_cons_zero, Option.some.injEq] at hx
                  subst hx
                  exact ⟨p.1, p.2, by rw [hfa], by simp [← hy]⟩
              | succ n =>
                  simp only [List.getElem?_cons_succ] at hx
                  obtain ⟨y, r, hfy, hys⟩ := ih (by rw [hrec]) n x hx
                  refine ⟨y, r, hfy, ?_⟩
                  rw [← hy]
                  simpa using hys

/-- C6.  The constant-folding pass rewrites every `add`/`sub`/`mul`/
`div`/`mod` instruction whose two operands are literal integer text into
`{opcode: "const", operands: [folded value as text], result: unchanged}`,
evaluating in exact integer arithmetic (floor semantics; here both
operands are digit strings, so truncating and floor division agree),
while a `div`/`mod` whose second operand has integer value 0 is left
completely unchanged. -/
theorem constant_folding_folds_literal_int_arith
    (m m' : IRModule) (ds : List OptDetail) (fi bi ii : Nat) (inst : Instr)
    (a b : String)
    (hcf : constantFolding m = some (m', ds))
    (hAt : instrAt m fi bi ii = some inst)
    (hArith : inst.opcode ∈ arithOps)
    (hops : inst.operands = [some a, some b])
    (hda : isDigitText a = true) (hdb : isDigitText b = true) :
    instrAt m' fi bi ii = some
      (if (inst.opcode = "div" ∨ inst.opcode = "mod") ∧ strToNat b = 0
       then inst
       else ⟨"const",
             [some (toString (pyFold inst.opcode (strToNat a) (strToNat b)))],
             inst.result⟩) := by
  -- unpack the positions named by `instrAt`
  simp only [instrAt, Option.bind_eq_some] at hAt
  obtain ⟨fn, hfn, blk, hblk, hinst⟩ := hAt
  -- unpack the three levels of `constantFolding`
  simp only [constantFolding] at hcf
  cases hF : optMapAcc (fun f =>
      match optMapAcc (foldBlock f.name) f.basic_blocks with
      | none => none
      | some p => some ({ f with basic_blocks := p.1 }, p.2)) m.functions with
  | none => rw [hF] at hcf; cases hcf
  | some P =>
      rw [hF] at hcf
      simp only [Option.some.injEq, Prod.mk.injEq] at hcf
      obtain ⟨hm', _⟩ := hcf
      obtain ⟨fn', rf, hffn, hfn'⟩ := optMapAcc_index hF fi fn hfn
      cases hB : optMapAcc (foldBlock fn.name) fn.basic_blocks with
      | none => rw [hB] at hffn; cases hffn
      | some Q =>
          rw [hB] at hffn
          simp only [Option.some.injEq, Prod.mk.injEq] at hffn
          obtain ⟨hfn'eq, _⟩ := hffn
          obtain ⟨blk', rb, hfblk, hblk'⟩ := optMapAcc_index hB bi blk hblk
          simp only [foldBlock] at hfblk
          cases hI : optMapAcc (foldInstr (fn.name ++ "." ++ blk.name)) blk.instructions with
          | none => rw [hI] at hfblk; cases hfblk
          | some R =>
              rw [hI] at hfblk
              simp only [Option.some.injEq, Prod.mk.injEq] at hfblk
              obtain ⟨hblk'eq, _⟩ := hfblk
              obtain ⟨inst', ri, hfinst, hinst'⟩ := optMapAcc_index hI ii inst hinst
              -- characterize the rewritten instruction
              have hchar : inst' =
                  (if (inst.opcode = "div" ∨ inst.opcode = "mod") ∧ strToNat b = 0
                   then inst
                   else ⟨"const",
                         [some (toString (pyFold inst.opcode (strToNat a) (strToNat b)))],
                         inst.result⟩) := by
                simp only [foldInstr, if_pos hArith, hops, hda, hdb, Bool.and_self,
                  if_pos] at hfinst
                simp only [arithOps, List.mem_cons, List.mem_singleton,
                  List.not_mem_nil, or_false] at hArith
                rcases hArith with h1 | h1 | h1 | h1 | h1 <;> rw [h1] at hfinst ⊢
                · rw [if_pos (by simp)] at hfinst
                  simp only [Option.some.injEq, Prod.mk.injEq] at hfinst
                  rw [if_neg (by simp)]
                  exact hfinst.1.symm
                · rw [if_pos (by simp)] at hfinst
                  simp only [Option.some.injEq, Prod.mk.injEq] at hfinst
                  rw [if_neg (by simp)]
                  exact hfinst.1.symm
                · rw [if_pos (by simp)] at hfinst
                  simp only [Option.some.injEq, Prod.mk.injEq] at hfinst
                  rw [if_neg (by simp)]
                  exact hfinst.1.symm
                · by_cases hz : strToNat b = 0
                  · rw [if_neg (by simp [hz])] at hfinst
                    simp only [Option.some.injEq, Prod.mk.injEq] at hfinst
                    rw [if_pos (by simp [hz])]
                    exact hfinst.1.symm
                  · rw [if_pos (by simp [hz])] at hfinst
                    simp only [Option.some.injEq, Prod.mk.injEq] at hfinst
                    rw [if_neg (by simp [hz])]
                    exact hfinst.1.symm
                · by_cases hz : strToNat b = 0
                  · rw [if_neg (by simp [hz])] at hfinst
                    simp only [Option.some.injEq, Prod.mk.injEq] at hfinst
                    rw [if_pos (by simp [hz])]
                    exact hfinst.1.symm
                  · rw [if_pos (by simp [hz])] at hfinst
                    simp only [Option.some.injEq, Prod.mk.injEq] at hfinst
                    rw [if_neg (by simp [hz])]
                    exact hfinst.1.symm
              -- assemble the output position
              rw [← hchar]
              simp only [instrAt]
              rw [← hm']
              rw [Option.bind_eq_some]
              refine ⟨fn', by simpa using hfn', ?_⟩
              rw [← hfn'eq]
              rw [Option.bind_eq_some]
              refine ⟨blk', by simpa using hblk', ?_⟩
              rw [← hblk'eq]
              simpa using hinst'

/-- A hand-built module (the shape of `test_constant_folding`) with
`add(5,3)→t1`, `mul(2,4)→t2` and a zero-divisor `div(7,0)→t3`. -/
def mC6 : IRModule :=
  ⟨[⟨"test", "int", [],
     [⟨"block_1",
       [⟨"add", [some "5", some "3"], some "t1"⟩,
        ⟨"mul", [some "2", some "4"], some "t2"⟩,
        ⟨"div", [some "7", some "0"], some "t3"⟩], [], []⟩], []⟩], [], [], []⟩

def cfC6 : IRModule × List OptDetail := (constantFolding mC6).getD (emptyIR, [])

theorem constant_folding_folds_literal_int_arith_witness :
    instrAt cfC6.1 0 0 0 = some ⟨"const", [some "8"], some "t1"⟩ := by
  have h := constant_folding_folds_literal_int_arith mC6 cfC6.1 cfC6.2 0 0 0
    ⟨"add", [some "5", some "3"], some "t1"⟩ "5" "3"
    rfl rfl (by decide) rfl rfl rfl
  rw [if_neg (by decide)] at h
  exact h

/-!  ## C7 -/

/-- A module whose block holds `add(1,2)→t1` *before* a `return 42`. -/
def mC7 : IRModule :=
  ⟨[⟨"test", "int", [],
     [⟨"block_1",
       [⟨"add", [some "1", some "2"], some "t1"⟩,
        ⟨"return", [some "42"], none⟩], [], []⟩], []⟩], [], [], []⟩

/-- C7 counterexample.  On a block that contains a `return`, the pass does
*not* delete exactly the instructions after the first `return` and does
*not* record an `unreachable_after_return` entry: here nothing follows the
`return`, yet the `add` *before* it is deleted (by the pass's unused-temp
rule) and the only record is `unused_temp`. -/
theorem dce_also_deletes_unused_temps_before_return :
    (deadCodeElimination mC7).2 = [OptDetail.unusedTemp "t1" "test.block_1"] ∧
    instrAt (deadCodeElimination mC7).1 0 0 0 = some ⟨"return", [some "42"], none⟩ ∧
    instrAt (deadCodeElimination mC7).1 0 0 1 = none := by
  exact ⟨rfl, rfl, rfl⟩

/-- C7 as amended.  On any block written `pre ++ [return] ++ post` whose
`pre` contains no return, the walk (a) deletes every instruction after
the first `return` and records a single `unreachable_after_return` entry
with count equal to the number deleted — but only when that count is
positive — and (b) may additionally delete instructions *before* the
`return` whose temporary results are unused, each recorded as
`unused_temp` (the surviving prefix is a sublist of `pre`). -/
theorem dce_deletes_after_first_return_and_unused_temps
    (loc : String) (pre post : List Instr) (retI : Instr)
    (hret : retI.opcode = "return")
    (hpre : ∀ x ∈ pre, x.opcode ≠ "return") :
    ∃ pre' recs',
      dceInstrs loc (pre ++ retI :: post) =
        (pre' ++ [retI],
         recs' ++
           if post = [] then []
           else [OptDetail.unreachableAfterReturn post.length loc]) ∧
      pre'.Sublist pre ∧
      (∀ r ∈ recs', ∃ t, r = OptDetail.unusedTemp t loc) := by
  revert hpre
  induction pre with
  | nil =>
      intro _
      refine ⟨[], [], ?_, List.Sublist.refl _, by simp⟩
      simp only [List.nil_append, dceInstrs]
      rw [if_pos hret]
      cases post with
      | nil => simp
      | cons p ps => simp
  | cons x xs ih =>
      intro hpre
      have hx : x.opcode ≠ "return" := hpre x (by simp)
      obtain ⟨pre', recs', heq, hsub, hrecs⟩ :=
        ih (fun y hy => hpre y (by simp [hy]))
      cases htr : tempResult x with
      | none =>
          refine ⟨x :: pre', recs', ?_, List.Sublist.cons₂ x hsub, hrecs⟩
          simp [dceInstrs, hx, htr, heq]
      | some r =>
          by_cases hused :
              ((xs ++ retI :: post).any (fun j => (some r) ∈ j.operands)) = true
          · refine ⟨x :: pre', recs', ?_, List.Sublist.cons₂ x hsub, hrecs⟩
            simp [dceInstrs, hx, htr, hused, heq]
          · refine ⟨pre', OptDetail.unusedTemp r loc :: recs', ?_,
              hsub.cons x, ?_⟩
            · simp [dceInstrs, hx, htr, hused, heq]
            · intro q hq
              rcases List.mem_cons.mp hq with hq | hq
              · exact ⟨r, by rw [hq]⟩
              · exact hrecs q hq

/-- The claim's own example, via the amended theorem: a block
`[return 42, add(1,2)→t1, store(t1,x)]` keeps exactly the `return` and
records one `unreachable_after_return` entry with count 2. -/
theorem dce_deletes_after_first_return_and_unused_temps_witness :
    ∃ pre' recs',
      dceInstrs "test.block_1"
        ([] ++ (⟨"return", [some "42"], none⟩ : Instr) ::
          [⟨"add", [some "1", some "2"], some "t1"⟩,
           ⟨"store", [some "t1", some "x"], none⟩]) =
        (pre' ++ [⟨"return", [some "42"], none⟩],
         recs' ++
           if ([⟨"add", [some "1", some "2"], some "t1"⟩,
                ⟨"store", [some "t1", some "x"], none⟩] : List Instr) = [] then []
           else [OptDetail.unreachableAfterReturn
                  ([⟨"add", [some "1", some "2"], some "t1"⟩,
                    ⟨"store", [some "t1", some "x"], none⟩] : List Instr).length
                  "test.block_1"]) ∧
      pre'.Sublist [] ∧
      (∀ r ∈ recs', ∃ t, r = OptDetail.unusedTemp t "test.block_1") :=
  dce_deletes_after_first_return_and_unused_temps "test.block_1" []
    [⟨"add", [some "1", some "2"], some "t1"⟩,
     ⟨"store", [some "t1", some "x"], none⟩]
    ⟨"return", [some "42"], none⟩ rfl (by simp)

/-!  ## C8

The implementation's `range(i)` scan searches the already-mutated prefix
of the block.  The claim speaks of "an earlier instruction in the same
block", i.e. of the original block contents; `cseSpecGo` below renders
the claim's wording (scan the *original* earlier instructions), and the
pass is proved equal to it: rewritten prefix entries are `copy`
instructions, which never match an arithmetic signature, and the first
occurrence of a signature is never rewritten, so both scans find the same
earlier result.
-/

/-- Refinement target for C8, following the claim's words: identical to
`cseGo` except that the earlier-duplicate scan searches the *original*
earlier instructions of the block (`pre`), not the rewritten prefix. -/
def cseSpecGo (loc : String) (pre : List Instr) :
    List Instr → List Instr × List OptDetail
  | [] => ([], [])
  | inst :: rest =>
      if inst.opcode ∈ arithOps then
        match findEarlier inst.opcode inst.operands pre with
        | some prev =>
            let newInst : Instr := ⟨"copy", [prev.result], inst.result⟩
            let p := cseSpecGo loc (pre ++ [inst]) rest
            (newInst :: p.1, .commonSubexpression inst prev.result loc :: p.2)
        | none =>
            let p := cseSpecGo loc (pre ++ [inst]) rest
            (inst :: p.1, p.2)
      else
        let p := cseSpecGo loc (pre ++ [inst]) rest
        (inst :: p.1, p.2)

/-- Per-block / per-module versions of `cseSpecGo` (same shape as the
implementation's). -/
def cseSpecBlock (fname : String) (b : Block) : Block × List OptDetail :=
  let p := cseSpecGo (fname ++ "." ++ b.name) [] b.instructions
  ({ b with instructions := p.1 }, p.2)

def cseSpecElimination (m : IRModule) : IRModule × List OptDetail :=
  let p := mapAcc (fun f =>
    let q := mapAcc (cseSpecBlock f.name) f.basic_blocks
    ({ f with basic_blocks := q.1 }, q.2)) m.functions
  ({ m with functions := p.1 }, p.2)

theorem findEarlier_append (opc : String) (ops : List (Option String))
    (l : List Instr) (x : Instr) :
    findEarlier opc ops (l ++ [x]) =
      match findEarlier opc ops l with
      | some p => some p
      | none => if x.opcode = opc && x.operands = ops then some x else none := by
  induction l with
  | nil => simp [findEarlier]
  | cons a as ih =>
      by_cases h : (a.opcode = opc && a.operands = ops) = true
      · simp [findEarlier, h]
      · simp only [List.cons_append, findEarlier, h]
        rw [if_neg (by simpa using h), if_neg (by simpa using h)]
        exact ih

/-- The processed prefix and the original prefix agree on the result of
the first instruction matching any arithmetic signature. -/
def MatchInv (pre done : List Instr) : Prop :=
  ∀ opc ops, opc ∈ arithOps →
    (findEarlier opc ops done).map Instr.result =
      (findEarlier opc ops pre).map Instr.result

theorem matchInv_append_same {pre done : List Instr}
    (h : MatchInv pre done) (x : Instr) :
    MatchInv (pre ++ [x]) (done ++ [x]) := by
  intro opc ops hopc
  rw [findEarlier_append, findEarlier_append]
  have hsig := h opc ops hopc
  cases h1 : findEarlier opc ops done with
  | some p =>
      rw [h1] at hsig
      cases h2 : findEarlier opc ops pre with
      | none => rw [h2] at hsig; simp at hsig
      | some q => rw [h2] at hsig; exact hsig
  | none =>
      rw [h1] at hsig
      cases h2 : findEarlier opc ops pre with
      | some q => rw [h2] at hsig; simp at hsig
      | none => rfl

theorem matchInv_append_rewrite {pre done : List Instr}
    (h : MatchInv pre done) (inst prev : Instr)
    (hop : inst.opcode ∈ arithOps)
    (hf : findEarlier inst.opcode inst.operands done = some prev) :
    MatchInv (pre ++ [inst])
      (done ++ [⟨"copy", [prev.result], inst.result⟩]) := by
  intro opc ops hopc
  rw [findEarlier_append, findEarlier_append]
  have hsig := h opc ops hopc
  cases h1 : findEarlier opc ops done with
  | some p =>
      rw [h1] at hsig
      cases h2 : findEarlier opc ops pre with
      | none => rw [h2] at hsig; simp at hsig
      | some q => rw [h2] at hsig; exact hsig
  | none =>
      rw [h1] at hsig
      cases h2 : findEarlier opc ops pre with
      | some q => rw [h2] at hsig; simp at hsig
      | none =>
          -- neither appended instruction can produce a new match:
          -- a `copy` never matches an arithmetic opcode, and if `inst`
          -- matched `(opc, ops)` then its own signature would already
          -- have a match in `pre` (via `MatchInv` and `hf`) — against `h2`.
          have hcopy :
              ¬ (((⟨"copy", [prev.result], inst.result⟩ : Instr).opcode = opc &&
                  (⟨"copy", [prev.result], inst.result⟩ : Instr).operands = ops) = true) := by
            simp only [Bool.and_eq_true, decide_eq_true_eq]
            rintro ⟨hc, -⟩
            have hopc' : opc = "add" ∨ opc = "sub" ∨ opc = "mul" ∨
                opc = "div" ∨ opc = "mod" := by simpa [arithOps] using hopc
            rcases hopc' with h' | h' | h' | h' | h' <;> subst h' <;>
              exact absurd hc (by decide)
          have hinst :
              ¬ ((inst.opcode = opc && inst.operands = ops) = true) := by
            simp only [Bool.and_eq_true, decide_eq_true_eq]
            rintro ⟨hco, hops⟩
            have hsig2 := h inst.opcode inst.operands hop
            rw [hf] at hsig2
            rw [hco, hops] at hsig2
            rw [h2] at hsig2
            simp at hsig2
          rw [if_neg hcopy, if_neg hinst]

theorem cseGo_eq_spec (loc : String) (rest : List Instr) :
    ∀ (pre done : List Instr), MatchInv pre done →
      cseGo loc done rest = cseSpecGo loc pre rest := by
  induction rest with
  | nil => intro pre done _; simp [cseGo, cseSpecGo]
  | cons inst rest ih =>
      intro pre done h
      by_cases hop : inst.opcode ∈ arithOps
      · cases hfd : findEarlier inst.opcode inst.operands done with
        | some prev =>
            have hsig := h inst.opcode inst.operands hop
            rw [hfd] at hsig
            cases hfp : findEarlier inst.opcode inst.operands pre with
            | none => rw [hfp] at hsig; simp at hsig
            | some prevS =>
                rw [hfp] at hsig
                have hres : prev.result = prevS.result := by simpa using hsig
                have hrec := ih (pre ++ [inst])
                  (done ++ [⟨"copy", [prev.result], inst.result⟩])
                  (matchInv_append_rewrite h inst prev hop hfd)
                rw [hres] at hrec
                simp [cseGo, cseSpecGo, hop, hfd, hfp, hrec, hres]
        | none =>
            have hsig := h inst.opcode inst.operands hop
            rw [hfd] at hsig
            cases hfp : findEarlier inst.opcode inst.operands pre with
            | some q => rw [hfp] at hsig; simp at hsig
            | none =>
                have hrec := ih (pre ++ [inst]) (done ++ [inst])
                  (matchInv_append_same h inst)
                simp [cseGo, cseSpecGo, hop, hfd, hfp, hrec]
      · have hrec := ih (pre ++ [inst]) (done ++ [inst])
          (matchInv_append_same h inst)
        simp [cseGo, cseSpecGo, hop, hrec]

theorem mapAcc_congr {α β γ : Type _} {f g : α → β × List γ}
    (h : ∀ a, f a = g a) : ∀ l : List α, mapAcc f l = mapAcc g l := by
  intro l
  induction l with
  | nil => rfl
  | cons a as ih => simp [mapAcc, h a, ih]

/-- The claim's example block `[add(a,b)→t1, add(a,b)→t2, mul(x,y)→t3,
mul(x,y)→t4]` (the shape of `test_common_subexpression_elimination`). -/
def mC8 : IRModule :=
  ⟨[⟨"test", "int", [],
     [⟨"block_1",
       [⟨"add", [some "a", some "b"], some "t1"⟩,
        ⟨"add", [some "a", some "b"], some "t2"⟩,
        ⟨"mul", [some "x", some "y"], some "t3"⟩,
        ⟨"mul", [some "x", some "y"], some "t4"⟩], [], []⟩], []⟩], [], [], []⟩

/-- C8.  The pass equals its claim-side rendering: every arithmetic
instruction with an identical earlier (original) instruction is rewritten
to `{copy, [the first such instruction's result], result unchanged}`, one
record per rewrite.  On the claim's example block the 2nd and 4th
instructions become copies of `t1` and `t3` with exactly two records. -/
theorem cse_rewrites_duplicates_to_copy_of_earlier_result :
    (∀ m : IRModule, commonSubexpressionElimination m = cseSpecElimination m) ∧
    commonSubexpressionElimination mC8 =
      (⟨[⟨"test", "int", [],
          [⟨"block_1",
            [⟨"add", [some "a", some "b"], some "t1"⟩,
             ⟨"copy", [some "t1"], some "t2"⟩,
             ⟨"mul", [some "x", some "y"], some "t3"⟩,
             ⟨"copy", [some "t3"], some "t4"⟩], [], []⟩], []⟩], [], [], []⟩,
       [OptDetail.commonSubexpression ⟨"add", [some "a", some "b"], some "t2"⟩
          (some "t1") "test.block_1",
        OptDetail.commonSubexpression ⟨"mul", [some "x", some "y"], some "t4"⟩
          (some "t3") "test.block_1"]) := by
  constructor
  · intro m
    have hblk : ∀ (fname : String) (b : Block),
        cseBlock fname b = cseSpecBlock fname b := by
      intro fname b
      simp only [cseBlock, cseSpecBlock]
      rw [cseGo_eq_spec (fname ++ "." ++ b.name) b.instructions [] []
        (fun opc ops _ => rfl)]
    have hfn : ∀ fn : Func,
        (let q := mapAcc (cseBlock fn.name) fn.basic_blocks
         (({ fn with basic_blocks := q.1 }, q.2) : Func × List OptDetail)) =
        (let q := mapAcc (cseSpecBlock fn.name) fn.basic_blocks
         ({ fn with basic_blocks := q.1 }, q.2)) := by
      intro fn
      have hb := mapAcc_congr (hblk fn.name) fn.basic_blocks
      simp only [hb]
    simp only [commonSubexpressionElimination, cseSpecElimination]
    rw [mapAcc_congr hfn]
  · rfl

end PyToCpp
